import Mathlib

/-!
# Verification of the price-optimizer core

A shallow embedding of the repository's core pipeline
(`data_io.latest_baseline`, `demand.estimate_elasticity`, `demand.demand_at_price`,
`optimize.solve_prices`, `report.summarize`) together with theorems settling the
specification claims.

Modelling conventions:
* pandas data frames become `List` of explicit record structures, one structure
  per table schema;
* floating-point numbers on the price/quantity side are idealised as `ℚ`
  (every IEEE double is a rational); the demand model, whose `**` is a genuine
  real power, is idealised as `Real.rpow` over `ℝ`;
* Python's `round(x, 2)` (round half to even on the second decimal) becomes
  `round2` below;
* the external MILP solver (pulp) is modelled non-deterministically: the
  selection it reports is a `Finset ℕ` of candidate indices, and theorems about
  `solve_prices` hypothesise what pulp guarantees (a feasible optimal
  selection, or no selection at all on failure);
* the external regression fit (sklearn `LinearRegression` on the log-log data)
  is modelled as an arbitrary parameter `fit`; no claim depends on its value;
* the pandas left merge of the baseline with the elasticity table is modelled
  as a first-match lookup, faithful under the data-model invariant that the
  elasticity table has at most one row per SKU.
-/

/-- Round half to even (banker's rounding) to the nearest integer, as Python's
builtin `round` does on an exactly-representable tie. -/
def roundHalfEven (x : ℚ) : ℤ :=
  if x - ⌊x⌋ < 1/2 then ⌊x⌋
  else if 1/2 < x - ⌊x⌋ then ⌊x⌋ + 1
  else if ⌊x⌋ % 2 = 0 then ⌊x⌋ else ⌊x⌋ + 1

/-- Python's `round(x, 2)`: round half to even at the second decimal. -/
def round2 (x : ℚ) : ℚ := (roundHalfEven (100 * x) : ℚ) / 100

/-- One row of the cleaned observation table (`load_sales` output):
date, sku, price, units, cost.  Dates are totally ordered timestamps, modelled
as naturals; skus are identifiers, modelled as naturals. -/
structure Obs where
  date : ℕ
  sku : ℕ
  price : ℚ
  units : ℚ
  cost : ℚ
deriving DecidableEq

/-- One row of the elasticity table produced by `estimate_elasticity`. -/
structure ElasRow where
  sku : ℕ
  elasticity : ℚ
deriving DecidableEq

/-- One row of the baseline table produced by `latest_baseline`. -/
structure BaseRow where
  sku : ℕ
  base_price : ℚ
  base_units : ℚ
  cost : ℚ
deriving DecidableEq

/-- One row of the candidate table built inside `solve_prices`. -/
structure CandRow where
  sku : ℕ
  price : ℚ
  qty : ℚ
  profit : ℚ
deriving DecidableEq

/-- One row of the chosen table returned by `solve_prices`. -/
structure ChosenRow where
  sku : ℕ
  opt_price : ℚ
  opt_qty : ℚ
  opt_profit : ℚ
deriving DecidableEq

/-- One row of the report table returned by `summarize`. -/
structure ReportRow where
  sku : ℕ
  base_price : ℚ
  base_units : ℚ
  cost : ℚ
  opt_price : ℚ
  opt_qty : ℚ
  opt_profit : ℚ
  base_profit : ℚ
  delta_profit : ℚ
  delta_price_pct : ℚ
deriving DecidableEq

/-- `demand.demand_at_price`: the constant-elasticity demand model
`base_units * (new_price / base_price) ** elasticity`.  The float power is
idealised as the real power `Real.rpow`. -/
noncomputable def demand_at_price (base_units base_price elasticity new_price : ℝ) : ℝ :=
  base_units * (new_price / base_price) ^ elasticity

/-- The per-SKU valid observations used by `estimate_elasticity`: the SKU's
group further filtered to `units > 0` and `price > 0`. -/
def validObs (df : List Obs) (s : ℕ) : List Obs :=
  (df.filter (fun r => decide (r.sku = s))).filter
    (fun r => decide (0 < r.units) && decide (0 < r.price))

/-- `demand.estimate_elasticity`: group the observations by SKU; for each SKU
keep the rows with positive units and price; with fewer than 3 such rows emit
the fallback elasticity `-1.0`, otherwise emit the fitted log-log slope.
The external sklearn regression is abstracted as the parameter `fit`. -/
def estimate_elasticity (fit : List Obs → ℚ) (df : List Obs) : List ElasRow :=
  ((df.map Obs.sku).dedup).map (fun s =>
    if (validObs df s).length < 3 then ⟨s, -1⟩ else ⟨s, fit (validObs df s)⟩)

/-- The maximum observation date of a SKU's group
(`df.groupby("sku")["date"].transform("max")`). -/
def maxDateFor (df : List Obs) (s : ℕ) : ℕ :=
  ((df.filter (fun r => decide (r.sku = s))).map Obs.date).foldr max 0

/-- The rows surviving the latest-date mask of `latest_baseline`
(`df[latest_mask]`): a row survives iff its date equals the maximum date of its
own SKU group. -/
def latestMask (df : List Obs) : List Obs :=
  df.filter (fun r => decide (r.date = maxDateFor df r.sku))

/-- The aggregation step of `latest_baseline`: the arithmetic means of
price, units and cost over a group of observations (`.agg(... "mean")`). -/
def meanBaseRow (g : List Obs) (s : ℕ) : BaseRow :=
  { sku := s
    base_price := (g.map Obs.price).sum / g.length
    base_units := (g.map Obs.units).sum / g.length
    cost := (g.map Obs.cost).sum / g.length }

/-- `data_io.latest_baseline`: keep the rows dated at their SKU's maximum date,
then group by SKU and average price, units and cost. -/
def latest_baseline (df : List Obs) : List BaseRow :=
  (((latestMask df).map Obs.sku).dedup).map (fun s =>
    meanBaseRow ((latestMask df).filter (fun r => decide (r.sku = s))) s)

/-- The observations of SKU `s` dated at that SKU's maximum date — the subset
the specification says the baseline averages over. -/
def latestGroup (df : List Obs) (s : ℕ) : List Obs :=
  df.filter (fun r => decide (r.sku = s) && decide (r.date = maxDateFor df s))

/-- The elasticity attached to a baseline row by the left merge of
`solve_prices` (`base.merge(elas, on="sku", how="left").fillna(-1.0)`),
modelled as a first-match lookup with default `-1.0`. -/
def elasticityFor (elas : List ElasRow) (s : ℕ) : ℚ :=
  ((elas.find? (fun e => decide (e.sku = s))).map ElasRow.elasticity).getD (-1)

/-- The feasible price floor of a baseline row:
`max (cost * (1 + min_margin_pct)) (base_price * lowPct)`. -/
def priceFloor (lo mm : ℚ) (r : BaseRow) : ℚ :=
  max (r.cost * (1 + mm)) (r.base_price * lo)

/-- The feasible price ceiling of a baseline row: `base_price * highPct`,
raised to the floor when it falls below it. -/
def priceCeil (lo hi mm : ℚ) (r : BaseRow) : ℚ :=
  if r.base_price * hi < priceFloor lo mm r then priceFloor lo mm r
  else r.base_price * hi

/-- The discretized candidate price grid of a baseline row:
`sorted(set(round(pmin + (pmax - pmin) * i / 10, 2) for i in range(11)))`. -/
def gridFor (lo hi mm : ℚ) (r : BaseRow) : List ℚ :=
  (((List.range 11).map (fun i : ℕ =>
      round2 (priceFloor lo mm r +
        (priceCeil lo hi mm r - priceFloor lo mm r) * (i : ℚ) / 10))).dedup).insertionSort (· ≤ ·)

/-- The candidate rows generated from one (merged) baseline row: one row per
grid price, with predicted quantity clamped to `≥ 0` and
`profit = (price - cost) * qty`.  The floating-point demand evaluation is
abstracted as the parameter `dem`. -/
def rowCandidates (dem : ℚ → ℚ → ℚ → ℚ → ℚ) (elas : List ElasRow)
    (lo hi mm : ℚ) (r : BaseRow) : List CandRow :=
  (gridFor lo hi mm r).map (fun p =>
    let q := max 0 (dem r.base_units r.base_price (elasticityFor elas r.sku) p)
    { sku := r.sku, price := p, qty := q, profit := (p - r.cost) * q })

/-- The full candidate table built by `solve_prices`: every baseline row
contributes its grid of candidates. -/
def mkCandidates (dem : ℚ → ℚ → ℚ → ℚ → ℚ) (base : List BaseRow)
    (elas : List ElasRow) (lo hi mm : ℚ) : List CandRow :=
  base.flatMap (rowCandidates dem elas lo hi mm)

/-- The candidate row at index `i` (`cand.loc[i]`). -/
def getAt (cand : List CandRow) (i : ℕ) : CandRow :=
  cand.getD i ⟨0, 0, 0, 0⟩

/-- The candidate rows the solver marked selected, in index order
(`cand.loc[chosen_idx]` for `chosen_idx = [i for i, var in x.items() if
var.varValue == 1]`). -/
def chosenRows (cand : List CandRow) (S : Finset ℕ) : List CandRow :=
  ((List.range cand.length).filter (fun i => decide (i ∈ S))).map (getAt cand)

/-- Feasibility of a selection for the assignment program of `solve_prices`:
the selected indices are candidate indices, and for every SKU of the candidate
table exactly one of its candidates is selected (`lpSum x_i for i in g.index
== 1`). -/
def feasibleSel (cand : List CandRow) (S : Finset ℕ) : Prop :=
  (∀ i ∈ S, i < cand.length) ∧
    ∀ s ∈ cand.map CandRow.sku, (S.filter (fun i => (getAt cand i).sku = s)).card = 1

/-- The objective value of a selection: the summed profit of the selected
candidates (`lpSum x_i * cand.loc[i, "profit"]`). -/
def objVal (cand : List CandRow) (S : Finset ℕ) : ℚ :=
  ∑ i ∈ S, (getAt cand i).profit

/-- Optimality of a selection for the assignment program: feasible, and of
maximal objective value among all feasible selections. -/
def optimalSel (cand : List CandRow) (S : Finset ℕ) : Prop :=
  feasibleSel cand S ∧
    ∀ T ∈ (Finset.range cand.length).powerset,
      feasibleSel cand T → objVal cand T ≤ objVal cand S

instance (cand : List CandRow) (S : Finset ℕ) : Decidable (feasibleSel cand S) := by
  unfold feasibleSel
  infer_instance

instance (cand : List CandRow) (S : Finset ℕ) : Decidable (optimalSel cand S) := by
  unfold optimalSel
  infer_instance

/-- Column renaming of a selected candidate into a chosen row
(`price → opt_price`, `qty → opt_qty`, `profit → opt_profit`). -/
def candToChosen (c : CandRow) : ChosenRow :=
  ⟨c.sku, c.price, c.qty, c.profit⟩

/-- The trivial baseline assignment used when the solve yields no selection:
`opt_price = base_price`, `opt_qty = base_units`,
`opt_profit = (base_price - cost) * base_units`. -/
def fallbackRow (r : BaseRow) : ChosenRow :=
  ⟨r.sku, r.base_price, r.base_units, (r.base_price - r.cost) * r.base_units⟩

/-- `optimize.solve_prices`: merge baseline and elasticity, build the candidate
table, run the assignment program (its outcome is the selection `S`), and
return the selected candidates — falling back to the baseline assignment when
nothing was selected.  Early-outs on an empty merged table and on an empty
candidate table mirror the source. -/
def solve_prices (dem : ℚ → ℚ → ℚ → ℚ → ℚ) (base : List BaseRow)
    (elas : List ElasRow) (lo hi mm : ℚ) (S : Finset ℕ) : List ChosenRow :=
  if base = [] then []
  else if mkCandidates dem base elas lo hi mm = [] then []
  else if (chosenRows (mkCandidates dem base elas lo hi mm) S).map candToChosen = [] then
    base.map fallbackRow
  else (chosenRows (mkCandidates dem base elas lo hi mm) S).map candToChosen

/-- The row of the report table built from one joined (baseline, chosen)
pair: all baseline and chosen columns plus
`base_profit = (base_price - cost) * base_units`,
`delta_profit = opt_profit - base_profit`,
`delta_price_pct = (opt_price / base_price - 1) * 100`. -/
def mkReport (b : BaseRow) (c : ChosenRow) : ReportRow :=
  { sku := b.sku
    base_price := b.base_price
    base_units := b.base_units
    cost := b.cost
    opt_price := c.opt_price
    opt_qty := c.opt_qty
    opt_profit := c.opt_profit
    base_profit := (b.base_price - b.cost) * b.base_units
    delta_profit := c.opt_profit - (b.base_price - b.cost) * b.base_units
    delta_price_pct := (c.opt_price / b.base_price - 1) * 100 }

/-- The inner join on SKU of `summarize` (`base.merge(chosen, on="sku")`):
each baseline row is paired with every chosen row of the same SKU. -/
def innerJoinReport (base : List BaseRow) (chosen : List ChosenRow) : List ReportRow :=
  base.flatMap (fun b => (chosen.filter (fun c => decide (c.sku = b.sku))).map (mkReport b))

/-- The descending-`delta_profit` order of the report
(`sort_values("delta_profit", ascending=False)`). -/
def reportGE (a b : ReportRow) : Prop := b.delta_profit ≤ a.delta_profit

instance : DecidableRel reportGE := fun a b =>
  inferInstanceAs (Decidable (b.delta_profit ≤ a.delta_profit))

instance : IsTotal ReportRow reportGE := ⟨fun a b => le_total b.delta_profit a.delta_profit⟩

instance : IsTrans ReportRow reportGE := ⟨fun _ _ _ h1 h2 => le_trans h2 h1⟩

/-- `report.summarize`: inner join on SKU, compute the profit/price deltas,
and sort descending by `delta_profit`. -/
def summarize (base : List BaseRow) (chosen : List ChosenRow) : List ReportRow :=
  (innerJoinReport base chosen).insertionSort reportGE

section RoundingLemmas

/-- `roundHalfEven` lands within one half of its argument. -/
theorem roundHalfEven_bounds (x : ℚ) :
    x - 1/2 ≤ (roundHalfEven x : ℚ) ∧ (roundHalfEven x : ℚ) ≤ x + 1/2 := by
  have h1 : (⌊x⌋ : ℚ) ≤ x := Int.floor_le x
  have h2 : x < (⌊x⌋ : ℚ) + 1 := Int.lt_floor_add_one x
  unfold roundHalfEven
  split_ifs with ha hb hc <;> constructor <;> push_cast <;> linarith

/-- Python's `round(x, 2)` lands within `1/200` of its argument. -/
theorem round2_bounds (x : ℚ) :
    x - 1/200 ≤ round2 x ∧ round2 x ≤ x + 1/200 := by
  have h := roundHalfEven_bounds (100 * x)
  unfold round2
  constructor <;> [linarith [h.1]; linarith [h.2]]

end RoundingLemmas

section GridLemmas

/-- The price ceiling never falls below the price floor. -/
theorem priceFloor_le_priceCeil (lo hi mm : ℚ) (r : BaseRow) :
    priceFloor lo mm r ≤ priceCeil lo hi mm r := by
  unfold priceCeil
  split_ifs with h
  · exact le_refl _
  · exact le_of_not_lt h

/-- Membership in the grid: exactly the roundings of the 11 evenly spaced
points of `[priceFloor, priceCeil]`. -/
theorem mem_gridFor (lo hi mm : ℚ) (r : BaseRow) (p : ℚ) :
    p ∈ gridFor lo hi mm r ↔
      ∃ i : ℕ, i < 11 ∧ round2 (priceFloor lo mm r +
        (priceCeil lo hi mm r - priceFloor lo mm r) * (i : ℚ) / 10) = p := by
  unfold gridFor
  rw [List.mem_insertionSort, List.mem_dedup, List.mem_map]
  constructor
  · rintro ⟨i, hi, hp⟩
    exact ⟨i, List.mem_range.mp hi, hp⟩
  · rintro ⟨i, hi, hp⟩
    exact ⟨i, List.mem_range.mpr hi, hp⟩

/-- The grid is never empty. -/
theorem gridFor_ne_nil (lo hi mm : ℚ) (r : BaseRow) : gridFor lo hi mm r ≠ [] := by
  intro h
  have h0 : round2 (priceFloor lo mm r +
      (priceCeil lo hi mm r - priceFloor lo mm r) * ((0 : ℕ) : ℚ) / 10) ∈ gridFor lo hi mm r :=
    (mem_gridFor lo hi mm r _).mpr ⟨0, by norm_num, rfl⟩
  rw [h] at h0
  exact List.not_mem_nil _ h0

/-- The grid has no duplicate prices and at most 11 of them. -/
theorem gridFor_nodup_card (lo hi mm : ℚ) (r : BaseRow) :
    (gridFor lo hi mm r).Nodup ∧ (gridFor lo hi mm r).length ≤ 11 := by
  unfold gridFor
  constructor
  · exact (List.perm_insertionSort _ _).nodup_iff.mpr (List.nodup_dedup _)
  · rw [(List.perm_insertionSort _ _).length_eq]
    apply le_trans (List.dedup_sublist _).length_le
    rw [List.length_map, List.length_range]

/-- Each of the 11 evenly spaced (unrounded) grid points lies between the
floor and the ceiling. -/
theorem grid_point_mem (lo hi mm : ℚ) (r : BaseRow) (i : ℕ) (hi11 : i < 11) :
    priceFloor lo mm r ≤ priceFloor lo mm r +
        (priceCeil lo hi mm r - priceFloor lo mm r) * (i : ℚ) / 10 ∧
      priceFloor lo mm r +
        (priceCeil lo hi mm r - priceFloor lo mm r) * (i : ℚ) / 10 ≤ priceCeil lo hi mm r := by
  have h1 := priceFloor_le_priceCeil lo hi mm r
  have h2 : (0 : ℚ) ≤ (i : ℚ) := Nat.cast_nonneg i
  have h3 : (i : ℚ) ≤ 10 := by exact_mod_cast Nat.lt_succ_iff.mp hi11
  constructor <;> nlinarith

end GridLemmas

section ListCountLemmas

/-- In a list without duplicates, the count of a value is its membership
indicator. -/
theorem countP_eq_ite_of_nodup (l : List ℕ) (h : l.Nodup) (s : ℕ) :
    l.countP (fun t => decide (t = s)) = if s ∈ l then 1 else 0 := by
  induction l with
  | nil => simp
  | cons a t ih =>
    rw [List.countP_cons, ih (List.nodup_cons.mp h).2]
    have ha : a ∉ t := (List.nodup_cons.mp h).1
    by_cases hs : s = a
    · subst hs
      simp [ha]
    · have hs2 : ¬a = s := fun hsa => hs hsa.symm
      simp [hs, hs2, List.mem_cons]

/-- The maximum computed by `foldr max 0` over a non-empty list of naturals is
attained by one of its elements. -/
theorem foldr_max_mem (l : List ℕ) (h : l ≠ []) : l.foldr max 0 ∈ l := by
  induction l with
  | nil => exact absurd rfl h
  | cons a t ih =>
    cases t with
    | nil => simp
    | cons b u =>
      rw [List.foldr_cons]
      rcases max_choice a ((b :: u).foldr max 0) with hm | hm
      · rw [hm]
        exact List.mem_cons_self a _
      · rw [hm]
        exact List.mem_cons_of_mem _ (ih (by simp))

/-- `foldr max 0` bounds every element of the list. -/
theorem le_foldr_max (l : List ℕ) : ∀ a ∈ l, a ≤ l.foldr max 0 := by
  induction l with
  | nil => intro a ha; exact absurd ha (List.not_mem_nil a)
  | cons b t ih =>
    intro a ha
    rw [List.foldr_cons]
    rcases List.mem_cons.mp ha with rfl | hat
    · exact le_max_left _ _
    · exact le_trans (ih a hat) (le_max_right _ _)

end ListCountLemmas

section CandidateTheorems

/-- C4 (amended): every baseline row yields a single non-empty SKU group
(all its candidates carry the row's SKU), its candidate prices are the grid,
which holds at most 11 distinct prices; every candidate price is the
2-decimal rounding of a point of `[floor, ceiling]`, hence lies within
`[floor - 1/200, ceiling + 1/200]` and is at least
`cost * (1 + min_margin_pct) - 1/200`.  (The unrounded claim fails: rounding
may push the first grid point strictly below the floor, see the
counterexample.) -/
theorem rowCandidates_bounds (dem : ℚ → ℚ → ℚ → ℚ → ℚ) (elas : List ElasRow)
    (lo hi mm : ℚ) (r : BaseRow) :
    rowCandidates dem elas lo hi mm r ≠ [] ∧
    (∀ c ∈ rowCandidates dem elas lo hi mm r, c.sku = r.sku) ∧
    (rowCandidates dem elas lo hi mm r).map CandRow.price = gridFor lo hi mm r ∧
    (gridFor lo hi mm r).Nodup ∧
    (gridFor lo hi mm r).length ≤ 11 ∧
    ∀ p ∈ gridFor lo hi mm r,
      priceFloor lo mm r - 1/200 ≤ p ∧ p ≤ priceCeil lo hi mm r + 1/200 ∧
      r.cost * (1 + mm) - 1/200 ≤ p := by
  refine ⟨?_, ?_, ?_, (gridFor_nodup_card lo hi mm r).1, (gridFor_nodup_card lo hi mm r).2, ?_⟩
  · unfold rowCandidates
    simp only [ne_eq, List.map_eq_nil_iff]
    exact gridFor_ne_nil lo hi mm r
  · intro c hc
    obtain ⟨p, _, hp⟩ := List.mem_map.mp hc
    rw [← hp]
  · unfold rowCandidates
    rw [List.map_map]
    exact List.map_id _
  · intro p hp
    obtain ⟨i, hi11, hround⟩ := (mem_gridFor lo hi mm r p).mp hp
    have hmem := grid_point_mem lo hi mm r i hi11
    have hb := round2_bounds (priceFloor lo mm r +
      (priceCeil lo hi mm r - priceFloor lo mm r) * (i : ℚ) / 10)
    have hfloor : r.cost * (1 + mm) ≤ priceFloor lo mm r := le_max_left _ _
    refine ⟨?_, ?_, ?_⟩ <;> rw [← hround] <;> linarith [hmem.1, hmem.2, hb.1, hb.2]

unseal Rat.add Rat.mul Rat.inv Rat.sub in
/-- Witness for C4 (amended) at the default bounds on the baseline row
`⟨sku 0, base_price 10, base_units 100, cost 6⟩`, checked at the grid price
`7` (the floor). -/
theorem rowCandidates_bounds_witness :
    (rowCandidates (fun _ _ _ _ => 3) [] (7/10) (13/10) (1/20) ⟨0, 10, 100, 6⟩ ≠ []) ∧
    (priceFloor (7/10) (1/20) ⟨0, 10, 100, 6⟩ - 1/200 ≤ 7 ∧
      (7 : ℚ) ≤ priceCeil (7/10) (13/10) (1/20) ⟨0, 10, 100, 6⟩ + 1/200 ∧
      (⟨0, 10, 100, 6⟩ : BaseRow).cost * (1 + 1/20) - 1/200 ≤ 7) :=
  ⟨(rowCandidates_bounds (fun _ _ _ _ => 3) [] (7/10) (13/10) (1/20) ⟨0, 10, 100, 6⟩).1,
    (rowCandidates_bounds (fun _ _ _ _ => 3) [] (7/10) (13/10) (1/20)
      ⟨0, 10, 100, 6⟩).2.2.2.2.2 7 (by decide)⟩

unseal Rat.add Rat.mul Rat.inv Rat.sub in
/-- C4 counterexample: for the baseline row `⟨sku 0, base_price 1, base_units 5,
cost 1⟩` with bounds `(0.7, 1.3)` and `min_margin_pct = 0.005`, the candidate
price `1.00` is produced (the rounding of the floor `1.005`), and it is
strictly below both the floor and `cost * (1 + min_margin_pct)` — refuting
"every candidate price lies within `[floor, ceiling]`" and "every candidate
price is `≥ cost * (1 + min_margin_pct)`" as literally stated. -/
theorem grid_price_below_floor_cx :
    (1 : ℚ) ∈ (rowCandidates (fun _ _ _ _ => 0) [] (7/10) (13/10) (1/200)
        ⟨0, 1, 5, 1⟩).map CandRow.price ∧
    (1 : ℚ) < priceFloor (7/10) (1/200) ⟨0, 1, 5, 1⟩ ∧
    (1 : ℚ) < (⟨0, 1, 5, 1⟩ : BaseRow).cost * (1 + 1/200) := by decide

/-- C5 (amended): when the margin floor `cost * (1 + min_margin_pct)` exceeds
`base_price * highPct`, the ceiling is forced equal to the floor and the grid
collapses to the single candidate price `round2 floor` — the floor rounded to
2 decimals (not the floor itself, see the counterexample). -/
theorem gridFor_collapsed_singleton (lo hi mm : ℚ) (r : BaseRow)
    (h : r.base_price * hi < r.cost * (1 + mm)) :
    priceCeil lo hi mm r = priceFloor lo mm r ∧
    gridFor lo hi mm r = [round2 (priceFloor lo mm r)] := by
  have hflo : r.cost * (1 + mm) ≤ priceFloor lo mm r := le_max_left _ _
  have hceil : priceCeil lo hi mm r = priceFloor lo mm r := by
    unfold priceCeil
    rw [if_pos (lt_of_lt_of_le h hflo)]
  refine ⟨hceil, ?_⟩
  unfold gridFor
  rw [hceil]
  have hmap : (List.range 11).map (fun i : ℕ =>
      round2 (priceFloor lo mm r +
        (priceFloor lo mm r - priceFloor lo mm r) * (i : ℚ) / 10)) =
      List.replicate 11 (round2 (priceFloor lo mm r)) := by
    rw [List.map_eq_replicate_iff.mpr]
    · rw [List.length_range]
    · intro i _
      rw [sub_self, zero_mul, zero_div, add_zero]
  rw [hmap, List.replicate_dedup (by norm_num)]
  rfl

unseal Rat.add Rat.mul Rat.inv Rat.sub in
/-- Witness for C5 (amended) at `base_price = 0.5`, `cost = 1`,
`min_margin_pct = 0.005`, bounds `(0.7, 1.3)`. -/
theorem gridFor_collapsed_singleton_witness :
    ((⟨0, 1/2, 5, 1⟩ : BaseRow).base_price * (13/10) <
        (⟨0, 1/2, 5, 1⟩ : BaseRow).cost * (1 + 1/200)) ∧
    (priceCeil (7/10) (13/10) (1/200) ⟨0, 1/2, 5, 1⟩ =
        priceFloor (7/10) (1/200) ⟨0, 1/2, 5, 1⟩ ∧
      gridFor (7/10) (13/10) (1/200) ⟨0, 1/2, 5, 1⟩ =
        [round2 (priceFloor (7/10) (1/200) ⟨0, 1/2, 5, 1⟩)]) :=
  ⟨by decide, gridFor_collapsed_singleton (7/10) (13/10) (1/200) ⟨0, 1/2, 5, 1⟩ (by decide)⟩

unseal Rat.add Rat.mul Rat.inv Rat.sub in
/-- C5 counterexample: for `base_price = 0.5`, `cost = 1`,
`min_margin_pct = 0.005`, bounds `(0.7, 1.3)`, the margin floor `1.005`
exceeds `base_price * highPct = 0.65`, the grid collapses to the single
price `1.00` — which is NOT equal to the floor `1.005`. -/
theorem grid_collapse_not_floor_cx :
    ((⟨0, 1/2, 5, 1⟩ : BaseRow).base_price * (13/10) <
        (⟨0, 1/2, 5, 1⟩ : BaseRow).cost * (1 + 1/200)) ∧
    gridFor (7/10) (13/10) (1/200) ⟨0, 1/2, 5, 1⟩ = [1] ∧
    (1 : ℚ) ≠ priceFloor (7/10) (1/200) ⟨0, 1/2, 5, 1⟩ := by decide

end CandidateTheorems

section ElasticityTheorems

/-- C6: for every observation table and every fit, the elasticity table has
exactly one row per distinct SKU of the input (count 1 for present SKUs,
0 for absent ones — no SKU dropped, none duplicated), and any SKU with fewer
than 3 valid (price>0, units>0) observations gets elasticity exactly `-1`,
whatever the fitted values are. -/
theorem estimate_elasticity_rows (fit : List Obs → ℚ) (df : List Obs) :
    (∀ s : ℕ, (estimate_elasticity fit df).countP (fun e => decide (e.sku = s)) =
      if s ∈ df.map Obs.sku then 1 else 0) ∧
    ∀ e ∈ estimate_elasticity fit df,
      (validObs df e.sku).length < 3 → e.elasticity = -1 := by
  constructor
  · intro s
    unfold estimate_elasticity
    rw [List.countP_map]
    have hcongr : ∀ t ∈ (df.map Obs.sku).dedup,
        ((fun e : ElasRow => decide (e.sku = s)) ∘ (fun t : ℕ =>
          if (validObs df t).length < 3 then ⟨t, -1⟩ else ⟨t, fit (validObs df t)⟩)) t = true ↔
        (fun t : ℕ => decide (t = s)) t = true := by
      intro t _
      have hsku : (if (validObs df t).length < 3 then (⟨t, -1⟩ : ElasRow)
          else ⟨t, fit (validObs df t)⟩).sku = t := by
        split <;> rfl
      simp only [Function.comp_apply, hsku]
    rw [List.countP_congr hcongr,
      countP_eq_ite_of_nodup _ (List.nodup_dedup _) s]
    by_cases hmem : s ∈ df.map Obs.sku
    · rw [if_pos (List.mem_dedup.mpr hmem), if_pos hmem]
    · rw [if_neg (fun hc => hmem (List.mem_dedup.mp hc)), if_neg hmem]
  · intro e he hlen
    unfold estimate_elasticity at he
    obtain ⟨t, _, ht⟩ := List.mem_map.mp he
    by_cases hc : (validObs df t).length < 3
    · rw [if_pos hc] at ht
      rw [← ht]
    · rw [if_neg hc] at ht
      have hsku : e.sku = t := by rw [← ht]
      rw [hsku] at hlen
      exact absurd hlen hc

unseal Rat.add Rat.mul Rat.inv Rat.sub in
/-- Witness for C6: a SKU (7) with exactly two valid observations has exactly
one row in the output, and its fallback elasticity is `-1` even under an
arbitrary fit (constantly 37). -/
theorem estimate_elasticity_rows_witness :
    ((estimate_elasticity (fun _ => 37) [⟨1, 7, 10, 5, 4⟩, ⟨2, 7, 12, 5, 4⟩]).countP
        (fun e => decide (e.sku = 7)) =
      if 7 ∈ ([⟨1, 7, 10, 5, 4⟩, ⟨2, 7, 12, 5, 4⟩] : List Obs).map Obs.sku then 1 else 0) ∧
    (ElasRow.mk 7 (-1)).elasticity = -1 :=
  ⟨(estimate_elasticity_rows (fun _ => 37) [⟨1, 7, 10, 5, 4⟩, ⟨2, 7, 12, 5, 4⟩]).1 7,
    (estimate_elasticity_rows (fun _ => 37) [⟨1, 7, 10, 5, 4⟩, ⟨2, 7, 12, 5, 4⟩]).2
      ⟨7, -1⟩ (by decide) (by decide)⟩

end ElasticityTheorems

section BaselineTheorems

/-- The SKU-and-latest-date group used by `latest_baseline` agrees with the
specification-side `latestGroup`. -/
theorem latestMask_filter_eq (df : List Obs) (s : ℕ) :
    (latestMask df).filter (fun r => decide (r.sku = s)) = latestGroup df s := by
  unfold latestMask latestGroup
  rw [List.filter_filter]
  apply List.filter_congr
  intro r _
  by_cases hr : r.sku = s
  · rw [hr]
  · simp [hr]

/-- C8: for every SKU present in the observations, `latest_baseline` returns
exactly one row for it; `maxDateFor` is the true maximum date of that SKU's
observations (it bounds all of them and is attained); and the row is the
arithmetic mean of price, units and cost over exactly the observations of
that SKU dated at the maximum date. -/
theorem latest_baseline_means (df : List Obs) (s : ℕ) (h : s ∈ df.map Obs.sku) :
    ((latest_baseline df).countP (fun b => decide (b.sku = s)) = 1) ∧
    (∀ r ∈ df, r.sku = s → r.date ≤ maxDateFor df s) ∧
    (∃ r ∈ df, r.sku = s ∧ r.date = maxDateFor df s) ∧
    ∀ b ∈ latest_baseline df, b.sku = s → b = meanBaseRow (latestGroup df s) s := by
  obtain ⟨r0, hr0df, hr0s⟩ := List.mem_map.mp h
  have hgrp : r0 ∈ df.filter (fun r => decide (r.sku = s)) :=
    List.mem_filter.mpr ⟨hr0df, by rw [hr0s]; exact decide_eq_true rfl⟩
  have hne : (df.filter (fun r => decide (r.sku = s))).map Obs.date ≠ [] := by
    rw [ne_eq, List.map_eq_nil_iff]
    intro hnil
    rw [hnil] at hgrp
    exact List.not_mem_nil r0 hgrp
  have hattain : ∃ r ∈ df, r.sku = s ∧ r.date = maxDateFor df s := by
    have hmem := foldr_max_mem _ hne
    obtain ⟨r1, hr1, hd⟩ := List.mem_map.mp hmem
    obtain ⟨hr1df, hr1s⟩ := List.mem_filter.mp hr1
    exact ⟨r1, hr1df, of_decide_eq_true hr1s, hd.symm ▸ rfl⟩
  have hbound : ∀ r ∈ df, r.sku = s → r.date ≤ maxDateFor df s := by
    intro r hrdf hrs
    apply le_foldr_max
    exact List.mem_map.mpr ⟨r, List.mem_filter.mpr
      ⟨hrdf, by rw [hrs]; exact decide_eq_true rfl⟩, rfl⟩
  have hmask : s ∈ (latestMask df).map Obs.sku := by
    obtain ⟨r1, hr1df, hr1s, hr1d⟩ := hattain
    apply List.mem_map.mpr
    refine ⟨r1, List.mem_filter.mpr ⟨hr1df, ?_⟩, hr1s⟩
    rw [hr1s, hr1d]
    exact decide_eq_true rfl
  refine ⟨?_, hbound, hattain, ?_⟩
  · unfold latest_baseline
    rw [List.countP_map]
    have hcongr : ∀ t ∈ ((latestMask df).map Obs.sku).dedup,
        ((fun b : BaseRow => decide (b.sku = s)) ∘ (fun t : ℕ =>
          meanBaseRow ((latestMask df).filter (fun r => decide (r.sku = t))) t)) t = true ↔
        (fun t : ℕ => decide (t = s)) t = true := by
      intro t _
      exact Iff.rfl
    rw [List.countP_congr hcongr,
      countP_eq_ite_of_nodup _ (List.nodup_dedup _) s,
      if_pos (List.mem_dedup.mpr hmask)]
  · intro b hb hbs
    unfold latest_baseline at hb
    obtain ⟨t, _, ht⟩ := List.mem_map.mp hb
    have hts : t = s := by
      rw [← hbs, ← ht]
      rfl
    rw [← ht, hts, latestMask_filter_eq]

unseal Rat.add Rat.mul Rat.inv Rat.sub in
/-- Witness for C8: two same-date duplicate rows for SKU 0 with prices 10 and
12 (units 5, cost 4) give exactly one baseline row, and the averaged group row
has `base_price = 11`. -/
theorem latest_baseline_means_witness :
    (0 ∈ ([⟨1, 0, 10, 5, 4⟩, ⟨1, 0, 12, 5, 4⟩] : List Obs).map Obs.sku) ∧
    ((latest_baseline [⟨1, 0, 10, 5, 4⟩, ⟨1, 0, 12, 5, 4⟩]).countP
        (fun b => decide (b.sku = 0)) = 1) ∧
    meanBaseRow (latestGroup [⟨1, 0, 10, 5, 4⟩, ⟨1, 0, 12, 5, 4⟩] 0) 0 = ⟨0, 11, 5, 4⟩ :=
  ⟨by decide,
    (latest_baseline_means [⟨1, 0, 10, 5, 4⟩, ⟨1, 0, 12, 5, 4⟩] 0 (by decide)).1,
    by decide⟩

end BaselineTheorems

section SelectionLemmas

/-- An in-range index addresses a member of the candidate list. -/
theorem getAt_mem (cand : List CandRow) (i : ℕ) (h : i < cand.length) :
    getAt cand i ∈ cand := by
  unfold getAt
  rw [List.getD_eq_getElem?_getD, List.getElem?_eq_getElem h, Option.getD_some]
  exact List.getElem_mem h

/-- Every member of the candidate list is addressed by an in-range index. -/
theorem mem_getAt (cand : List CandRow) (c : CandRow) (h : c ∈ cand) :
    ∃ i, i < cand.length ∧ getAt cand i = c := by
  obtain ⟨i, hi, hc⟩ := List.mem_iff_getElem.mp h
  refine ⟨i, hi, ?_⟩
  unfold getAt
  rw [List.getD_eq_getElem?_getD, List.getElem?_eq_getElem hi, Option.getD_some, hc]

/-- Every row the solver selected is a candidate row. -/
theorem chosenRows_subset (cand : List CandRow) (S : Finset ℕ) :
    ∀ c ∈ chosenRows cand S, c ∈ cand := by
  intro c hc
  unfold chosenRows at hc
  obtain ⟨i, hi, hci⟩ := List.mem_map.mp hc
  obtain ⟨hirange, _⟩ := List.mem_filter.mp hi
  rw [← hci]
  exact getAt_mem cand i (List.mem_range.mp hirange)

/-- Index membership in the selected rows. -/
theorem getAt_mem_chosenRows (cand : List CandRow) (S : Finset ℕ) (i : ℕ)
    (hin : i < cand.length) (hiS : i ∈ S) : getAt cand i ∈ chosenRows cand S := by
  unfold chosenRows
  exact List.mem_map.mpr ⟨i, List.mem_filter.mpr
    ⟨List.mem_range.mpr hin, decide_eq_true hiS⟩, rfl⟩

/-- A feasible selection over a non-empty candidate table selects something. -/
theorem chosenRows_ne_nil (cand : List CandRow) (S : Finset ℕ)
    (hfeas : feasibleSel cand S) (hc : cand ≠ []) : chosenRows cand S ≠ [] := by
  obtain ⟨c0, hc0⟩ := List.exists_mem_of_ne_nil cand hc
  have hsku : c0.sku ∈ cand.map CandRow.sku := List.mem_map.mpr ⟨c0, hc0, rfl⟩
  obtain ⟨a, ha⟩ := Finset.card_eq_one.mp (hfeas.2 c0.sku hsku)
  have haS : a ∈ S := by
    have : a ∈ S.filter (fun i => (getAt cand i).sku = c0.sku) := by
      rw [ha]
      exact Finset.mem_singleton_self a
    exact (Finset.mem_filter.mp this).1
  intro hnil
  have := getAt_mem_chosenRows cand S a (hfeas.1 a haS) haS
  rw [hnil] at this
  exact List.not_mem_nil _ this

/-- The per-SKU row count of the selected rows equals the cardinality of the
corresponding selected index set. -/
theorem countP_sku_chosenRows (cand : List CandRow) (S : Finset ℕ)
    (hb : ∀ i ∈ S, i < cand.length) (s : ℕ) :
    (chosenRows cand S).countP (fun c => decide (c.sku = s)) =
      (S.filter (fun i => (getAt cand i).sku = s)).card := by
  unfold chosenRows
  rw [List.countP_map, List.countP_eq_length_filter, List.filter_filter]
  have h2 : ∀ i ∈ List.range cand.length,
      (((fun c : CandRow => decide (c.sku = s)) ∘ getAt cand) i && decide (i ∈ S)) =
        decide ((getAt cand i).sku = s ∧ i ∈ S) := by
    intro i _
    rw [Bool.decide_and]
    rfl
  rw [List.filter_congr h2]
  have h1 : S.filter (fun i => (getAt cand i).sku = s) =
      (Finset.range cand.length).filter (fun i => (getAt cand i).sku = s ∧ i ∈ S) := by
    ext k
    simp only [Finset.mem_filter, Finset.mem_range]
    constructor
    · rintro ⟨hk, hq⟩
      exact ⟨hb k hk, hq, hk⟩
    · rintro ⟨_, hq, hk⟩
      exact ⟨hk, hq⟩
  rw [h1]
  rfl

/-- A non-empty baseline always yields a non-empty candidate table (each row's
grid is non-empty). -/
theorem mkCandidates_ne_nil (dem : ℚ → ℚ → ℚ → ℚ → ℚ) (base : List BaseRow)
    (elas : List ElasRow) (lo hi mm : ℚ) (hbase : base ≠ []) :
    mkCandidates dem base elas lo hi mm ≠ [] := by
  obtain ⟨r, hr⟩ := List.exists_mem_of_ne_nil base hbase
  obtain ⟨p, hp⟩ := List.exists_mem_of_ne_nil _ (gridFor_ne_nil lo hi mm r)
  intro hnil
  have hmem : (rowCandidates dem elas lo hi mm r).length ≠ 0 := by
    unfold rowCandidates
    rw [List.length_map]
    intro hzero
    rw [List.length_eq_zero.mp hzero] at hp
    exact List.not_mem_nil p hp
  apply hmem
  have hsub : rowCandidates dem elas lo hi mm r ≠ [] → False := by
    intro hne
    obtain ⟨c, hc⟩ := List.exists_mem_of_ne_nil _ hne
    have : c ∈ mkCandidates dem base elas lo hi mm :=
      List.mem_flatMap.mpr ⟨r, hr, hc⟩
    rw [hnil] at this
    exact List.not_mem_nil c this
  by_cases hne : rowCandidates dem elas lo hi mm r = []
  · rw [hne]
    rfl
  · exact absurd hne (fun h => hsub h)

/-- The candidate table carries exactly the baseline SKUs. -/
theorem mem_sku_mkCandidates (dem : ℚ → ℚ → ℚ → ℚ → ℚ) (base : List BaseRow)
    (elas : List ElasRow) (lo hi mm : ℚ) (s : ℕ) :
    s ∈ (mkCandidates dem base elas lo hi mm).map CandRow.sku ↔
      s ∈ base.map BaseRow.sku := by
  constructor
  · intro h
    obtain ⟨c, hc, hcs⟩ := List.mem_map.mp h
    obtain ⟨r, hr, hcr⟩ := List.mem_flatMap.mp hc
    apply List.mem_map.mpr
    refine ⟨r, hr, ?_⟩
    obtain ⟨p, _, hpc⟩ := List.mem_map.mp hcr
    rw [← hcs, ← hpc]
  · intro h
    obtain ⟨r, hr, hrs⟩ := List.mem_map.mp h
    obtain ⟨p, hp⟩ := List.exists_mem_of_ne_nil _ (gridFor_ne_nil lo hi mm r)
    apply List.mem_map.mpr
    refine ⟨⟨r.sku, p, max 0 (dem r.base_units r.base_price (elasticityFor elas r.sku) p),
      (p - r.cost) * max 0 (dem r.base_units r.base_price (elasticityFor elas r.sku) p)⟩,
      ?_, hrs⟩
    apply List.mem_flatMap.mpr
    refine ⟨r, hr, ?_⟩
    unfold rowCandidates
    exact List.mem_map.mpr ⟨p, hp, rfl⟩

/-- The exchange argument: under an optimal selection, a selected candidate's
profit dominates every candidate of the same SKU. -/
theorem optimal_sel_profit_max (cand : List CandRow) (S : Finset ℕ)
    (hopt : optimalSel cand S) :
    ∀ i ∈ S, ∀ j : ℕ, j < cand.length →
      (getAt cand j).sku = (getAt cand i).sku →
      (getAt cand j).profit ≤ (getAt cand i).profit := by
  obtain ⟨⟨hbound, hcard⟩, hmax⟩ := hopt
  intro i hi j hj hsku
  by_cases hij : j = i
  · rw [hij]
  have hin : i < cand.length := hbound i hi
  have hskus : (getAt cand i).sku ∈ cand.map CandRow.sku :=
    List.mem_map.mpr ⟨getAt cand i, getAt_mem cand i hin, rfl⟩
  have h1 := hcard _ hskus
  have hifil : i ∈ S.filter (fun k => (getAt cand k).sku = (getAt cand i).sku) :=
    Finset.mem_filter.mpr ⟨hi, rfl⟩
  obtain ⟨a, ha⟩ := Finset.card_eq_one.mp h1
  have hia : a = i := by
    rw [ha] at hifil
    exact (Finset.mem_singleton.mp hifil).symm
  have hfilS : S.filter (fun k => (getAt cand k).sku = (getAt cand i).sku) = {i} := by
    rw [ha, hia]
  have hjS : j ∉ S := by
    intro hjmem
    have hjfil : j ∈ S.filter (fun k => (getAt cand k).sku = (getAt cand i).sku) :=
      Finset.mem_filter.mpr ⟨hjmem, hsku⟩
    rw [hfilS] at hjfil
    exact hij (Finset.mem_singleton.mp hjfil)
  have hjnotin : j ∉ S.erase i := fun hc => hjS (Finset.mem_of_mem_erase hc)
  have hT : insert j (S.erase i) ∈ (Finset.range cand.length).powerset := by
    rw [Finset.mem_powerset]
    intro k hk
    rw [Finset.mem_range]
    rcases Finset.mem_insert.mp hk with rfl | hk2
    · exact hj
    · exact hbound k (Finset.mem_of_mem_erase hk2)
  have hTfeas : feasibleSel cand (insert j (S.erase i)) := by
    constructor
    · intro k hk
      rcases Finset.mem_insert.mp hk with rfl | hk2
      · exact hj
      · exact hbound k (Finset.mem_of_mem_erase hk2)
    · intro s2 hs2
      by_cases hss : s2 = (getAt cand i).sku
      · subst hss
        rw [Finset.filter_insert, if_pos hsku, Finset.filter_erase, hfilS,
          Finset.erase_singleton, Finset.card_insert_of_not_mem (Finset.not_mem_empty j),
          Finset.card_empty]
      · have hjs2 : ¬((getAt cand j).sku = s2) := by
          rw [hsku]
          exact fun hc => hss hc.symm
        rw [Finset.filter_insert, if_neg hjs2, Finset.filter_erase,
          Finset.erase_eq_of_not_mem, hcard s2 hs2]
        intro hifil2
        exact hss ((Finset.mem_filter.mp hifil2).2).symm
  have hobjT : objVal cand (insert j (S.erase i)) =
      (getAt cand j).profit + (objVal cand S - (getAt cand i).profit) := by
    unfold objVal
    rw [Finset.sum_insert hjnotin, Finset.sum_erase_eq_sub hi]
  have hle := hmax _ hT hTfeas
  rw [hobjT] at hle
  linarith

end SelectionLemmas

section SolveTheorems

/-- C1: whenever the assignment program's solution is optimal, every row of
the chosen table returned by `solve_prices` carries, as `opt_profit`, the
maximum `profit` over the candidate rows of its SKU — the LP formulation is
equivalent to an independent per-SKU argmax. -/
theorem solve_prices_selects_max_profit (dem : ℚ → ℚ → ℚ → ℚ → ℚ)
    (base : List BaseRow) (elas : List ElasRow) (lo hi mm : ℚ) (S : Finset ℕ)
    (hopt : optimalSel (mkCandidates dem base elas lo hi mm) S) :
    ∀ c ∈ solve_prices dem base elas lo hi mm S,
      (((mkCandidates dem base elas lo hi mm).filter
          (fun d => decide (d.sku = c.sku))).map CandRow.profit).maximum =
        (c.opt_profit : WithBot ℚ) := by
  intro c hc
  unfold solve_prices at hc
  by_cases hbase : base = []
  · rw [if_pos hbase] at hc
    exact absurd hc (List.not_mem_nil c)
  have hcand := mkCandidates_ne_nil dem base elas lo hi mm hbase
  have hch : (chosenRows (mkCandidates dem base elas lo hi mm) S).map candToChosen ≠ [] := by
    rw [ne_eq, List.map_eq_nil_iff]
    exact chosenRows_ne_nil _ S hopt.1 hcand
  rw [if_neg hbase, if_neg hcand, if_neg hch] at hc
  obtain ⟨d, hd, hdc⟩ := List.mem_map.mp hc
  unfold chosenRows at hd
  obtain ⟨i, hifil, hdi⟩ := List.mem_map.mp hd
  obtain ⟨hirange, hiS⟩ := List.mem_filter.mp hifil
  have hin : i < (mkCandidates dem base elas lo hi mm).length := List.mem_range.mp hirange
  have hiS2 : i ∈ S := of_decide_eq_true hiS
  apply List.maximum_eq_coe_iff.mpr
  constructor
  · apply List.mem_map.mpr
    refine ⟨d, List.mem_filter.mpr ⟨?_, ?_⟩, ?_⟩
    · rw [← hdi]
      exact getAt_mem _ i hin
    · rw [← hdc]
      exact decide_eq_true rfl
    · rw [← hdc]
      rfl
  · intro a ha
    obtain ⟨e, hefil, hea⟩ := List.mem_map.mp ha
    obtain ⟨hecand, hesku⟩ := List.mem_filter.mp hefil
    obtain ⟨j, hj, hje⟩ := mem_getAt _ e hecand
    have hes : e.sku = d.sku := by
      have h1 : e.sku = c.sku := of_decide_eq_true hesku
      rw [h1, ← hdc]
      rfl
    have hskuj : (getAt (mkCandidates dem base elas lo hi mm) j).sku =
        (getAt (mkCandidates dem base elas lo hi mm) i).sku := by
      rw [hje, hdi]
      exact hes
    have hle := optimal_sel_profit_max _ S hopt i hiS2 j hj hskuj
    rw [hje, hdi] at hle
    rw [← hea, ← hdc]
    exact hle

unseal Rat.add Rat.mul Rat.inv Rat.sub in
/-- Witness for C1 on a concrete one-candidate instance: the singleton
selection is optimal and the selected row's profit is the per-SKU maximum. -/
theorem solve_prices_selects_max_profit_witness :
    optimalSel (mkCandidates (fun _ _ _ _ => 3) [⟨0, 1/2, 5, 1⟩] []
      (7/10) (13/10) (1/200)) {0} ∧
    (((mkCandidates (fun _ _ _ _ => 3) [⟨0, 1/2, 5, 1⟩] [] (7/10) (13/10) (1/200)).filter
        (fun d => decide (d.sku = (⟨0, 1, 3, 0⟩ : ChosenRow).sku))).map CandRow.profit).maximum =
      ((⟨0, 1, 3, 0⟩ : ChosenRow).opt_profit : WithBot ℚ) :=
  ⟨by decide,
    solve_prices_selects_max_profit (fun _ _ _ _ => 3) [⟨0, 1/2, 5, 1⟩] []
      (7/10) (13/10) (1/200) {0} (by decide) ⟨0, 1, 3, 0⟩ (by decide)⟩

/-- C2: for every input whose baseline table satisfies the one-row-per-SKU
data-model invariant, and for every solver outcome pulp can produce (a
feasible selection, or none), the chosen table has exactly one row per SKU
present in the candidate table (count 1 for present SKUs, 0 otherwise — no
SKU missing, none duplicated), and it is empty exactly when the candidate
table is empty. -/
theorem solve_prices_one_row_per_sku (dem : ℚ → ℚ → ℚ → ℚ → ℚ)
    (base : List BaseRow) (elas : List ElasRow) (lo hi mm : ℚ) (S : Finset ℕ)
    (hnd : (base.map BaseRow.sku).Nodup)
    (hsel : feasibleSel (mkCandidates dem base elas lo hi mm) S ∨
      chosenRows (mkCandidates dem base elas lo hi mm) S = []) :
    (∀ s : ℕ, (solve_prices dem base elas lo hi mm S).countP
        (fun c => decide (c.sku = s)) =
      if s ∈ (mkCandidates dem base elas lo hi mm).map CandRow.sku then 1 else 0) ∧
    (solve_prices dem base elas lo hi mm S = [] ↔
      mkCandidates dem base elas lo hi mm = []) := by
  by_cases hbase : base = []
  · subst hbase
    constructor
    · intro s
      simp [solve_prices, mkCandidates]
    · simp [solve_prices, mkCandidates]
  · have hcand := mkCandidates_ne_nil dem base elas lo hi mm hbase
    rcases hsel with hfeas | hempty
    · have hch : chosenRows (mkCandidates dem base elas lo hi mm) S ≠ [] :=
        chosenRows_ne_nil _ S hfeas hcand
      have hchm : (chosenRows (mkCandidates dem base elas lo hi mm) S).map candToChosen ≠ [] := by
        rw [ne_eq, List.map_eq_nil_iff]
        exact hch
      have hsolve : solve_prices dem base elas lo hi mm S =
          (chosenRows (mkCandidates dem base elas lo hi mm) S).map candToChosen := by
        unfold solve_prices
        rw [if_neg hbase, if_neg hcand, if_neg hchm]
      constructor
      · intro s
        rw [hsolve, List.countP_map]
        have hcomp : ((fun c : ChosenRow => decide (c.sku = s)) ∘ candToChosen) =
            (fun d : CandRow => decide (d.sku = s)) := rfl
        rw [hcomp, countP_sku_chosenRows _ S hfeas.1 s]
        by_cases hmem : s ∈ (mkCandidates dem base elas lo hi mm).map CandRow.sku
        · rw [if_pos hmem]
          exact hfeas.2 s hmem
        · rw [if_neg hmem, Finset.card_eq_zero]
          apply Finset.filter_eq_empty_iff.mpr
          intro i hiS hskui
          apply hmem
          exact List.mem_map.mpr ⟨getAt _ i, getAt_mem _ i (hfeas.1 i hiS), hskui⟩
      · rw [hsolve]
        constructor
        · intro h
          exact absurd h hchm
        · intro h
          exact absurd h hcand
    · have hchm : (chosenRows (mkCandidates dem base elas lo hi mm) S).map candToChosen = [] := by
        rw [hempty]
        rfl
      have hsolve : solve_prices dem base elas lo hi mm S = base.map fallbackRow := by
        unfold solve_prices
        rw [if_neg hbase, if_neg hcand, if_pos hchm]
      constructor
      · intro s
        rw [hsolve, List.countP_map]
        have hcomp : ((fun c : ChosenRow => decide (c.sku = s)) ∘ fallbackRow) =
            (fun r : BaseRow => decide (r.sku = s)) := rfl
        rw [hcomp]
        have h2 : base.countP (fun r => decide (r.sku = s)) =
            (base.map BaseRow.sku).countP (fun t => decide (t = s)) :=
          (List.countP_map (fun t => decide (t = s)) BaseRow.sku base).symm
        rw [h2, countP_eq_ite_of_nodup _ hnd s]
        by_cases hmem : s ∈ base.map BaseRow.sku
        · rw [if_pos hmem,
            if_pos ((mem_sku_mkCandidates dem base elas lo hi mm s).mpr hmem)]
        · rw [if_neg hmem,
            if_neg (fun hc => hmem ((mem_sku_mkCandidates dem base elas lo hi mm s).mp hc))]
      · rw [hsolve]
        constructor
        · intro h
          rw [List.map_eq_nil_iff] at h
          exact absurd h hbase
        · intro h
          exact absurd h hcand

unseal Rat.add Rat.mul Rat.inv Rat.sub in
/-- Witness for C2 on a concrete instance with an empty solver selection:
the SKU present in the candidates gets exactly one (fallback) row, and the
output is non-empty like the candidate table. -/
theorem solve_prices_one_row_per_sku_witness :
    ((solve_prices (fun _ _ _ _ => 3) [⟨0, 1/2, 5, 1⟩] [] (7/10) (13/10) (1/200) ∅).countP
        (fun c => decide (c.sku = 0)) =
      if 0 ∈ (mkCandidates (fun _ _ _ _ => 3) [⟨0, 1/2, 5, 1⟩] []
        (7/10) (13/10) (1/200)).map CandRow.sku then 1 else 0) ∧
    (solve_prices (fun _ _ _ _ => 3) [⟨0, 1/2, 5, 1⟩] [] (7/10) (13/10) (1/200) ∅ = [] ↔
      mkCandidates (fun _ _ _ _ => 3) [⟨0, 1/2, 5, 1⟩] [] (7/10) (13/10) (1/200) = []) :=
  ⟨(solve_prices_one_row_per_sku (fun _ _ _ _ => 3) [⟨0, 1/2, 5, 1⟩] []
      (7/10) (13/10) (1/200) ∅ (by decide) (Or.inr (by decide))).1 0,
    (solve_prices_one_row_per_sku (fun _ _ _ _ => 3) [⟨0, 1/2, 5, 1⟩] []
      (7/10) (13/10) (1/200) ∅ (by decide) (Or.inr (by decide))).2⟩

/-- C3: on a non-empty candidate table, if the solve selects nothing, then
`solve_prices` returns the fallback row for every baseline row:
`opt_price = base_price`, `opt_qty = base_units`,
`opt_profit = (base_price - cost) * base_units`. -/
theorem solve_prices_fallback_rows (dem : ℚ → ℚ → ℚ → ℚ → ℚ)
    (base : List BaseRow) (elas : List ElasRow) (lo hi mm : ℚ) (S : Finset ℕ)
    (hcand : mkCandidates dem base elas lo hi mm ≠ [])
    (hsel : chosenRows (mkCandidates dem base elas lo hi mm) S = []) :
    solve_prices dem base elas lo hi mm S = base.map fallbackRow := by
  have hbase : base ≠ [] := by
    intro h
    apply hcand
    rw [h]
    rfl
  unfold solve_prices
  rw [if_neg hbase, if_neg hcand, if_pos (by rw [hsel]; rfl)]

unseal Rat.add Rat.mul Rat.inv Rat.sub in
/-- Witness for C3 on a concrete instance: an empty selection over a
non-empty candidate table produces exactly the baseline fallback rows landing
at `opt_profit = (1/2 - 1) * 5 = -5/2`. -/
theorem solve_prices_fallback_rows_witness :
    (mkCandidates (fun _ _ _ _ => 3) [⟨0, 1/2, 5, 1⟩] [] (7/10) (13/10) (1/200) ≠ []) ∧
    (chosenRows (mkCandidates (fun _ _ _ _ => 3) [⟨0, 1/2, 5, 1⟩] []
      (7/10) (13/10) (1/200)) ∅ = []) ∧
    (solve_prices (fun _ _ _ _ => 3) [⟨0, 1/2, 5, 1⟩] [] (7/10) (13/10) (1/200) ∅ =
      ([⟨0, 1/2, 5, 1⟩] : List BaseRow).map fallbackRow) ∧
    ([⟨0, 1/2, 5, 1⟩] : List BaseRow).map fallbackRow = [⟨0, 1/2, 5, -5/2⟩] :=
  ⟨by decide, by decide,
    solve_prices_fallback_rows (fun _ _ _ _ => 3) [⟨0, 1/2, 5, 1⟩] []
      (7/10) (13/10) (1/200) ∅ (by decide) (by decide),
    by decide⟩

end SolveTheorems

section ReportTheorems

/-- C9: every report row comes from a baseline row and a chosen row of the
same SKU (inner join — a SKU missing from either side produces no row), its
derived columns satisfy `base_profit = (base_price - cost) * base_units`,
`delta_profit = opt_profit - base_profit` and
`delta_price_pct = (opt_price / base_price - 1) * 100`, and the report is
sorted non-increasing by `delta_profit`. -/
theorem summarize_spec (base : List BaseRow) (chosen : List ChosenRow) :
    (∀ r ∈ summarize base chosen,
      (∃ b ∈ base, ∃ c ∈ chosen, c.sku = b.sku ∧ r = mkReport b c) ∧
      r.base_profit = (r.base_price - r.cost) * r.base_units ∧
      r.delta_profit = r.opt_profit - r.base_profit ∧
      r.delta_price_pct = (r.opt_price / r.base_price - 1) * 100) ∧
    (summarize base chosen).Sorted reportGE := by
  constructor
  · intro r hr
    have hr2 : r ∈ innerJoinReport base chosen := by
      unfold summarize at hr
      exact (List.perm_insertionSort reportGE _).mem_iff.mp hr
    obtain ⟨b, hb, hcmem⟩ := List.mem_flatMap.mp hr2
    obtain ⟨c, hcfil, hcr⟩ := List.mem_map.mp hcmem
    obtain ⟨hcin, hcsku⟩ := List.mem_filter.mp hcfil
    refine ⟨⟨b, hb, c, hcin, of_decide_eq_true hcsku, hcr.symm⟩, ?_, ?_, ?_⟩ <;>
      rw [← hcr] <;> rfl
  · unfold summarize
    exact List.sorted_insertionSort reportGE _

unseal Rat.add Rat.mul Rat.inv Rat.sub in
/-- Witness for C9 on a one-row join: the output is sorted and the joined
row's delta column satisfies its defining equation. -/
theorem summarize_spec_witness :
    (summarize [⟨5, 10, 100, 6⟩] [⟨5, 12, 80, 480⟩]).Sorted reportGE ∧
    (mkReport ⟨5, 10, 100, 6⟩ ⟨5, 12, 80, 480⟩).delta_profit =
      (mkReport ⟨5, 10, 100, 6⟩ ⟨5, 12, 80, 480⟩).opt_profit -
        (mkReport ⟨5, 10, 100, 6⟩ ⟨5, 12, 80, 480⟩).base_profit :=
  ⟨(summarize_spec [⟨5, 10, 100, 6⟩] [⟨5, 12, 80, 480⟩]).2,
    ((summarize_spec [⟨5, 10, 100, 6⟩] [⟨5, 12, 80, 480⟩]).1
      (mkReport ⟨5, 10, 100, 6⟩ ⟨5, 12, 80, 480⟩) (by decide)).2.2.1⟩

end ReportTheorems

section DemandTheorems

/-- C7: evaluating the demand model at the baseline price reproduces the
baseline quantity: for all `u`, all `p > 0` and all `e`,
`demand_at_price u p e p = u`. -/
theorem demand_at_price_base_identity (u p e : ℝ) (hp : 0 < p) :
    demand_at_price u p e p = u := by
  unfold demand_at_price
  rw [div_self (ne_of_gt hp), Real.one_rpow, mul_one]

/-- Witness for C7 at `u = 5`, `p = 2`, `e = -3`. -/
theorem demand_at_price_base_identity_witness :
    (0 : ℝ) < 2 ∧ demand_at_price 5 2 (-3) 2 = 5 :=
  ⟨by norm_num, demand_at_price_base_identity 5 2 (-3) (by norm_num)⟩

/-- C10: the demand model is strictly decreasing in the new price whenever the
elasticity is negative and the baseline quantity and prices are positive. -/
theorem demand_at_price_strict_anti (u p e p1 p2 : ℝ)
    (he : e < 0) (hu : 0 < u) (hp : 0 < p) (hp1 : 0 < p1) (h12 : p1 < p2) :
    demand_at_price u p e p2 < demand_at_price u p e p1 := by
  unfold demand_at_price
  have hx1 : 0 < p1 / p := div_pos hp1 hp
  have hxy : p1 / p < p2 / p := by
    apply div_lt_div_of_pos_right h12 hp
  exact mul_lt_mul_of_pos_left (Real.rpow_lt_rpow_of_neg hx1 hxy he) hu

/-- Witness for C10 at `u = 1`, `p = 1`, `e = -1`, `p1 = 1`, `p2 = 2`. -/
theorem demand_at_price_strict_anti_witness :
    ((-1 : ℝ) < 0 ∧ (0 : ℝ) < 1 ∧ (1 : ℝ) < 2) ∧
      demand_at_price 1 1 (-1) 2 < demand_at_price 1 1 (-1) 1 :=
  ⟨⟨by norm_num, by norm_num, by norm_num⟩,
    demand_at_price_strict_anti 1 1 (-1) 1 2 (by norm_num) (by norm_num)
      (by norm_num) (by norm_num) (by norm_num)⟩

end DemandTheorems
